import Mathlib

/-!
Verification model of `src/lib/jsonwp-proxy/protocol-converter.js`.

The source is a JavaScript class `ProtocolConverter` that adapts requests
between two dialects of the WebDriver wire protocol: the legacy MJSONWP
dialect (the spec's DialectA) and the W3C dialect (the spec's DialectB).
This file gives a shallow embedding of that module:

* JavaScript values appearing in request bodies are modelled by `JVal`
  (strings, integer numbers, booleans, null, and plain objects as ordered
  key/value lists; JSON arrays and non-integer numbers are not needed by
  any body the module manipulates and are treated as opaque/unsupported).
* The injected transport function `proxyFunc` is modelled as a function
  from the call index (the number of transport calls already made in the
  current operation) and the call arguments to a result, so that a
  stateful downstream peer can be expressed.
* Each method of the class becomes a Lean function parameterised by the
  active downstream protocol; the mutable `_downstreamProtocol` field is
  modelled separately by `ProtocolConverter` state-passing wrappers.
* JavaScript regular-expression operations on URLs are translated into
  explicit character-list scans with the same first-match semantics.
-/

namespace ProtoConv

/-- The two known downstream dialects, mirroring
`BaseDriver.DRIVER_PROTOCOL = {MJSONWP, W3C}`.  The JS field
`_downstreamProtocol` additionally admits `null` ("unknown"), modelled as
`Option Protocol` with `none`. -/
inductive Protocol where
  | MJSONWP
  | W3C
deriving DecidableEq, Repr

/-- JavaScript values as they occur in request bodies handled by the
converter: strings, integer numbers, booleans, `null`, and plain objects
(ordered association lists).  Non-integer numbers and arrays never arise
in the bodies this module constructs and are not modelled. -/
inductive JVal where
  | str (s : String)
  | num (n : Int)
  | bool (b : Bool)
  | null
  | obj (fields : List (String × JVal))

/-- Response metadata returned by the injected transport function; the
converter only ever inspects `statusCode`. -/
structure Response where
  statusCode : Nat
deriving DecidableEq, Repr

/-- One invocation of the injected transport function, recording the
arguments `(url, method, body)` it was given. -/
structure ProxyCall where
  url : String
  method : String
  body : JVal

/-- The injected transport function `proxyFunc`.  The first argument is
the number of transport calls already issued by the current top-level
operation, so that sequential calls may observe different downstream
states. -/
def Transport : Type := Nat → String → String → JVal → Response × JVal

/-- Result of a converter operation: the `[response, resBody]` pair the JS
code returns.  Both components are `Option` because `proxySetTimeouts`
can return the still-`undefined` loop variables when it makes no
transport call at all. -/
def ProxyResult : Type := Option Response × Option JVal

/- ### List-of-characters helpers used to translate the JS regex operations -/

/-- `isPrefixL n h` holds when the list `n` is an initial segment of `h`. -/
def isPrefixL : List Char → List Char → Bool
  | [], _ => true
  | _ :: _, [] => false
  | a :: ns, b :: hs => a = b && isPrefixL ns hs

/-- `endsWithL h s`: `s` is a final segment of `h`. -/
def endsWithL (h s : List Char) : Bool := isPrefixL s.reverse h.reverse

/-- Index of the first occurrence of `needle` as a contiguous sublist of
`hay` (the position a non-global JS regex made of literals would match). -/
def idxOfL (hay needle : List Char) : Option Nat :=
  match hay with
  | [] => if needle.isEmpty then some 0 else none
  | _ :: t => if isPrefixL needle hay then some 0 else (idxOfL t needle).map (· + 1)

/-- `containsSubL hay needle`: `needle` occurs somewhere in `hay`
(JS `String.prototype.includes`). -/
def containsSubL (hay needle : List Char) : Bool := (idxOfL hay needle).isSome

/-- JS line terminators, which `.` in a regular expression never matches. -/
def lineTerm (c : Char) : Bool :=
  c = '\n' || c = '\r' || c.val = 0x2028 || c.val = 0x2029

/-- Translation of `str.replace(new RegExp(needle ++ ".*"), repl)` for a
literal `needle` and a plain replacement string: the match starts at the
first occurrence of `needle` and extends to the first line terminator (or
the end); if `needle` does not occur the string is unchanged. -/
def replaceFromFirst (cs needle repl : List Char) : List Char :=
  match idxOfL cs needle with
  | none => cs
  | some i =>
    cs.take i ++ repl ++ ((cs.drop (i + needle.length)).dropWhile (fun c => !lineTerm c))

/- ### The URL converters of `COMMAND_URLS_CONFLICTS` -/

/-- `jsonwpConverter` of the execute rule:
`url.replace(/\/execute.*/, url.includes('async') ? '/execute_async' : '/execute')`. -/
def execJsonwpConverter (url : String) : String :=
  String.mk (replaceFromFirst url.data "/execute".data
    (if containsSubL url.data "async".data then "/execute_async".data else "/execute".data))

/-- `w3cConverter` of the execute rule:
`url.replace(/\/execute.*/, url.includes('async') ? '/execute/async' : '/execute/sync')`. -/
def execW3cConverter (url : String) : String :=
  String.mk (replaceFromFirst url.data "/execute".data
    (if containsSubL url.data "async".data then "/execute/async".data else "/execute/sync".data))

/-- Matcher for the anchored regex `/\/element\/([^/]+)\/screenshot$/`:
returns the part of the URL before the match together with the captured
element id when the URL has the form `…/element/{id}/screenshot` with a
nonempty, slash-free id. -/
def matchElemScreenshot (url : String) : Option (List Char × List Char) :=
  let cs := url.data
  if endsWithL cs "/screenshot".data then
    let a := cs.take (cs.length - "/screenshot".length)
    let idRev := a.reverse.takeWhile (fun c => c ≠ '/')
    let b := (a.reverse.drop idRev.length).reverse
    if idRev.isEmpty then none
    else if endsWithL b "/element/".data then
      some (b.take (b.length - "/element/".length), idRev.reverse)
    else none
  else none

/-- `jsonwpConverter` of the screenshot rule:
`url.replace(/\/element\/([^/]+)\/screenshot$/, '/screenshot/$1')`. -/
def screenshotJsonwpConverter (url : String) : String :=
  match matchElemScreenshot url with
  | some (pre, id) => String.mk (pre ++ "/screenshot/".data ++ id)
  | none => url

/-- Matcher for the unanchored regex `/\/screenshot\/([^/]+)/`, with JS
first-match scanning: returns `(before, id, after)` for the leftmost
position where `/screenshot/` is followed by at least one non-slash
character, the capture being the maximal such run. -/
def findScreenshotSub : List Char → Option (List Char × List Char × List Char)
  | [] => none
  | c :: rest =>
    if isPrefixL "/screenshot/".data (c :: rest) then
      let tail := (c :: rest).drop "/screenshot/".length
      let id := tail.takeWhile (fun x => x ≠ '/')
      if id.isEmpty then
        match findScreenshotSub rest with
        | some (b, i, a) => some (c :: b, i, a)
        | none => none
      else some ([], id, tail.drop id.length)
    else
      match findScreenshotSub rest with
      | some (b, i, a) => some (c :: b, i, a)
      | none => none

/-- `w3cConverter` of the screenshot rule:
`url.replace(/\/screenshot\/([^/]+)/, '/element/$1/screenshot')`. -/
def screenshotW3cConverter (url : String) : String :=
  match findScreenshotSub url.data with
  | some (b, id, a) => String.mk (b ++ "/element/".data ++ id ++ "/screenshot".data ++ a)
  | none => url

/-- Drop a known suffix: `cs.take (cs.length - s.length)`. -/
def dropSuffixL (cs s : List Char) : List Char := cs.take (cs.length - s.length)

/-- `jsonwpConverter` of the window rule: if the URL ends in `/window`
replace that suffix by `/window_handle`; otherwise replace an ending
`/window/handle(s?)` by `/window_handle(s?)`. -/
def windowJsonwpConverter (url : String) : String :=
  let cs := url.data
  if endsWithL cs "/window".data then
    String.mk (dropSuffixL cs "/window".data ++ "/window_handle".data)
  else if endsWithL cs "/window/handles".data then
    String.mk (dropSuffixL cs "/window/handles".data ++ "/window_handles".data)
  else if endsWithL cs "/window/handle".data then
    String.mk (dropSuffixL cs "/window/handle".data ++ "/window_handle".data)
  else url

/-- `w3cConverter` of the window rule: if the URL ends in `/window_handle`
replace that suffix by `/window`; otherwise replace an ending
`/window_handles` by `/window/handles`. -/
def windowW3cConverter (url : String) : String :=
  let cs := url.data
  if endsWithL cs "/window_handle".data then
    String.mk (dropSuffixL cs "/window_handle".data ++ "/window".data)
  else if endsWithL cs "/window_handles".data then
    String.mk (dropSuffixL cs "/window_handles".data ++ "/window/handles".data)
  else url

/-- One entry of the static `COMMAND_URLS_CONFLICTS` table. -/
structure ConversionRule where
  commandNames : List String
  jsonwpConverter : String → String
  w3cConverter : String → String

/-- The static, immutable rewrite-rule table `COMMAND_URLS_CONFLICTS`. -/
def COMMAND_URLS_CONFLICTS : List ConversionRule :=
  [ { commandNames := ["execute", "executeAsync"],
      jsonwpConverter := execJsonwpConverter,
      w3cConverter := execW3cConverter },
    { commandNames := ["getElementScreenshot"],
      jsonwpConverter := screenshotJsonwpConverter,
      w3cConverter := screenshotW3cConverter },
    { commandNames := ["getWindowHandles", "getWindowHandle"],
      jsonwpConverter := windowJsonwpConverter,
      w3cConverter := windowW3cConverter } ]

end ProtoConv

namespace ProtoConv

/- ### Body helpers (lodash `_.has`, `_.toPairs`, member access) -/

/-- First value bound to key `k` in an ordered field list. -/
def lookupField : List (String × JVal) → String → Option JVal
  | [], _ => none
  | p :: rest, k => if p.1 = k then some p.2 else lookupField rest k

/-- JS member access `body.k` for the keys the converter reads; `none`
models `undefined`. -/
def getKey (v : JVal) (k : String) : Option JVal :=
  match v with
  | JVal.obj fs => lookupField fs k
  | _ => none

/-- lodash `_.has(body, k)` for the non-index keys (`ms`, `type`, `name`,
`handle`) the converter queries: true exactly for plain objects owning the
key. -/
def hasKey (v : JVal) (k : String) : Bool := (getKey v k).isSome

/-- Member access under a guard that already established presence of the
key; the `null` default is never reached on guarded paths. -/
def jgetD (v : JVal) (k : String) : JVal := (getKey v k).getD JVal.null

/-- JS string coercion as performed by a template literal or a computed
property key, restricted to the value forms of `JVal`. -/
def templateStr : JVal → String
  | JVal.str s => s
  | JVal.num n => toString n
  | JVal.bool b => if b then "true" else "false"
  | JVal.null => "null"
  | JVal.obj _ => "[object Object]"

/-- lodash `_.toPairs(body)`: key/value pairs of a plain object in
insertion order; index/character pairs for a string; empty for the other
primitives. -/
def toPairs : JVal → List (String × JVal)
  | JVal.obj fs => fs
  | JVal.str s => s.data.enum.map (fun p => (toString p.1, JVal.str (String.mk [p.2])))
  | _ => []

/- ### `getTimeoutRequestObjects` -/

/-- The arrow `typeToW3C` from the source: the string `'page load'` maps
to `'pageLoad'`; any other value is used as the computed property key
(hence coerced to a string). -/
def typeToW3C : JVal → String
  | JVal.str s => if s = "page load" then "pageLoad" else s
  | v => templateStr v

/-- The arrow `typeToJSONWP` from the source: `'pageLoad'` maps back to
`'page load'`; every other key maps to itself. -/
def typeToJSONWP (x : String) : String := if x = "pageLoad" then "page load" else x

/-- The regex `/^\d+(?:[.,]\d*?)?$/` from the source: one or more digits,
optionally followed by a single `'.'` or `','` and then zero or more
digits. -/
def msValuePattern (s : String) : Bool :=
  let cs := s.data
  let ds := cs.takeWhile (fun c => c.isDigit)
  let rest := cs.dropWhile (fun c => c.isDigit)
  !ds.isEmpty &&
    (match rest with
     | [] => true
     | c :: tl => (c = '.' || c = ',') && tl.all (fun x => x.isDigit))

/-- `getTimeoutRequestObjects(body)`: splits/reshapes a `/timeouts`
request body according to the active downstream protocol. -/
def getTimeoutRequestObjects (proto : Option Protocol) (body : JVal) : List JVal :=
  if proto = some Protocol.W3C && hasKey body "ms" && hasKey body "type" then
    [JVal.obj [(typeToW3C (jgetD body "type"), jgetD body "ms")]]
  else if proto = some Protocol.MJSONWP && (!hasKey body "ms" || !hasKey body "type") then
    ((toPairs body).filter (fun pair => msValuePattern (templateStr pair.2))).map
      (fun pair => JVal.obj [("type", JVal.str (typeToJSONWP pair.1)), ("ms", pair.2)])
  else [body]

/- ### `proxySetTimeouts` -/

/-- The `for (const timeoutObj of timeoutRequestObjects)` loop of
`proxySetTimeouts`.  `k` counts the transport calls already issued and
`acc` carries the current values of the `response`/`resBody` variables
(`none` = still `undefined`).  Returns the `[response, resBody]` result
together with the list of transport calls issued, in order. -/
def proxyTimeoutsLoop (proto : Option Protocol) (proxy : Transport) (url method : String) :
    List JVal → Nat → ProxyResult → ProxyResult × List ProxyCall
  | [], _, acc => (acc, [])
  | timeoutObj :: rest, k, _ =>
    let r := proxy k url method timeoutObj
    if proto ≠ some Protocol.MJSONWP then
      ((some r.1, some r.2), [⟨url, method, timeoutObj⟩])
    else if r.1.statusCode ≥ 400 then
      ((some r.1, some r.2), [⟨url, method, timeoutObj⟩])
    else
      let next := proxyTimeoutsLoop proto proxy url method rest (k + 1) (some r.1, some r.2)
      (next.1, ⟨url, method, timeoutObj⟩ :: next.2)

/-- `proxySetTimeouts(url, method, body)`. -/
def proxySetTimeouts (proto : Option Protocol) (proxy : Transport) (url method : String)
    (body : JVal) : ProxyResult × List ProxyCall :=
  proxyTimeoutsLoop proto proxy url method (getTimeoutRequestObjects proto body) 0 (none, none)

end ProtoConv

namespace ProtoConv

/- ### `util.safeJsonParse` (appium-support helper used by `proxySetWindow`)

`safeJsonParse` wraps `JSON.parse` in a try/catch and returns its input
unchanged when parsing throws.  `JSON.parse` coerces its argument to a
string first, so for a number, boolean or `null` input it reproduces the
same value, and for a plain object (`"[object Object]"`) it throws; both
cases collapse to returning the input unchanged.  Only genuine string
inputs are parsed.  The parser below covers the JSON forms the converter
can meet in request bodies: objects, strings with the single-character
escapes, integer numbers, booleans and null.  The remaining JSON forms
(arrays, non-integer numbers, `\u` escapes) are treated as parse
failures, i.e. the original string is kept. -/

/-- JSON insignificant whitespace. -/
def jsonWs (c : Char) : Bool := c = ' ' || c = '\t' || c = '\n' || c = '\r'

/-- Drop leading JSON whitespace. -/
def skipWs (cs : List Char) : List Char := cs.dropWhile jsonWs

/-- Single-character JSON string escapes. -/
def escChar : Char → Option Char
  | '"' => some '"'
  | '\\' => some '\\'
  | '/' => some '/'
  | 'b' => some (Char.ofNat 8)
  | 'f' => some (Char.ofNat 12)
  | 'n' => some '\n'
  | 'r' => some '\r'
  | 't' => some '\t'
  | _ => none

/-- Parse the body of a JSON string after the opening quote; returns the
decoded characters and the rest of the input after the closing quote. -/
def parseStringBody : List Char → Option (List Char × List Char)
  | [] => none
  | '"' :: rest => some ([], rest)
  | '\\' :: c :: rest =>
    match escChar c with
    | some e => (parseStringBody rest).map (fun p => (e :: p.1, p.2))
    | none => none
  | c :: rest =>
    if c.val < 32 then none
    else (parseStringBody rest).map (fun p => (c :: p.1, p.2))

/-- Parse a JSON integer number (optional minus, no leading zeros);
fails on the fraction/exponent forms the model does not support. -/
def parseNumber (cs : List Char) : Option (Int × List Char) :=
  let neg := match cs with | '-' :: _ => true | _ => false
  let cs1 := match cs with | '-' :: t => t | _ => cs
  let ds := cs1.takeWhile (fun c => c.isDigit)
  let rest := cs1.dropWhile (fun c => c.isDigit)
  if ds.isEmpty then none
  else if 1 < ds.length && ds.headD '0' = '0' then none
  else if rest.headD ' ' = '.' || rest.headD ' ' = 'e' || rest.headD ' ' = 'E' then none
  else
    let n : Nat := ds.foldl (fun a c => a * 10 + (c.toNat - 48)) 0
    some (if neg then -(n : Int) else (n : Int), rest)

/-- Record a parsed object member the way JS object construction does:
a repeated key keeps its first position but takes the latest value. -/
def objInsert (fs : List (String × JVal)) (k : String) (v : JVal) : List (String × JVal) :=
  if (lookupField fs k).isSome then fs.map (fun p => if p.1 = k then (k, v) else p)
  else fs ++ [(k, v)]

mutual

/-- Parse one JSON value; `fuel` bounds the recursion depth and always
suffices when it exceeds the input length. -/
def parseValue : Nat → List Char → Option (JVal × List Char)
  | 0, _ => none
  | Nat.succ fuel, cs =>
    match skipWs cs with
    | '"' :: rest => (parseStringBody rest).map (fun p => (JVal.str (String.mk p.1), p.2))
    | '{' :: rest =>
      match skipWs rest with
      | '}' :: r2 => some (JVal.obj [], r2)
      | r2 => (parseMembers fuel r2 []).map (fun p => (JVal.obj p.1, p.2))
    | 't' :: rest => if isPrefixL "rue".data rest then some (JVal.bool true, rest.drop 3) else none
    | 'f' :: rest => if isPrefixL "alse".data rest then some (JVal.bool false, rest.drop 4) else none
    | 'n' :: rest => if isPrefixL "ull".data rest then some (JVal.null, rest.drop 3) else none
    | cs2 => (parseNumber cs2).map (fun p => (JVal.num p.1, p.2))

/-- Parse the members of a JSON object after its opening brace, given the
members already parsed. -/
def parseMembers : Nat → List Char → List (String × JVal) →
    Option (List (String × JVal) × List Char)
  | 0, _, _ => none
  | Nat.succ fuel, cs, acc =>
    match skipWs cs with
    | '"' :: rest =>
      match parseStringBody rest with
      | none => none
      | some (k, r1) =>
        match skipWs r1 with
        | ':' :: r2 =>
          match parseValue fuel r2 with
          | none => none
          | some (v, r3) =>
            match skipWs r3 with
            | ',' :: r4 => parseMembers fuel r4 (objInsert acc (String.mk k) v)
            | '}' :: r4 => some (objInsert acc (String.mk k) v, r4)
            | _ => none
        | _ => none
    | _ => none

end

/-- `JSON.parse` on a string, for the supported JSON subset: the whole
input (up to whitespace) must be one value. -/
def parseJson (s : String) : Option JVal :=
  match parseValue (s.data.length + 2) s.data with
  | some (v, rest) => if (skipWs rest).isEmpty then some v else none
  | none => none

/-- `util.safeJsonParse(body)`: parse string bodies, return everything
else (and unparsable strings) unchanged. -/
def safeJsonParse (body : JVal) : JVal :=
  match body with
  | JVal.str s => (parseJson s).getD (JVal.str s)
  | b => b

/-- lodash `_.isPlainObject`. -/
def isPlainObject : JVal → Bool
  | JVal.obj _ => true
  | _ => false

/- ### `proxySetWindow`, `convertAndProxy` and the dispatch loop -/

/-- A single transport invocation `await this.proxyFunc(url, method, body)`
at the start of an operation, returning its `[response, resBody]` result
and the one-element call trace. -/
def proxyOnce (proxy : Transport) (url method : String) (body : JVal) :
    ProxyResult × List ProxyCall :=
  let r := proxy 0 url method body
  ((some r.1, some r.2), [⟨url, method, body⟩])

/-- `proxySetWindow(url, method, body)`. -/
def proxySetWindow (proto : Option Protocol) (proxy : Transport) (url method : String)
    (body : JVal) : ProxyResult × List ProxyCall :=
  let bodyObj := safeJsonParse body
  if isPlainObject bodyObj &&
      (proto = some Protocol.W3C && hasKey bodyObj "name" && !hasKey bodyObj "handle") then
    proxyOnce proxy url method (JVal.obj [("handle", jgetD bodyObj "name")])
  else if isPlainObject bodyObj &&
      (proto = some Protocol.MJSONWP && hasKey bodyObj "handle" && !hasKey bodyObj "name") then
    proxyOnce proxy url method (JVal.obj [("name", jgetD bodyObj "handle")])
  else
    proxyOnce proxy url method body

/-- The `for (const {commandNames, jsonwpConverter, w3cConverter} of
COMMAND_URLS_CONFLICTS)` loop: the first rule whose `commandNames`
contains the command decides the outcome — `some rewritten` when its
converter changes the URL, `none` (fall through to the plain proxy call)
when the rewritten URL equals the input (`break`) or no rule matches. -/
def findConvertedUrl (proto : Protocol) (commandName url : String) :
    List ConversionRule → Option String
  | [] => none
  | rule :: rest =>
    if commandName ∈ rule.commandNames then
      let rewrittenUrl :=
        if proto = Protocol.MJSONWP then rule.jsonwpConverter url else rule.w3cConverter url
      if rewrittenUrl = url then none else some rewrittenUrl
    else findConvertedUrl proto commandName url rest

/-- `convertAndProxy(commandName, url, method, body)`: the dispatch
operation.  Also returns the ordered list of transport calls issued. -/
def convertAndProxy (proto : Option Protocol) (proxy : Transport)
    (commandName url method : String) (body : JVal) : ProxyResult × List ProxyCall :=
  match proto with
  | none => proxyOnce proxy url method body
  | some p =>
    if commandName = "timeouts" then proxySetTimeouts proto proxy url method body
    else if commandName = "setWindow" then proxySetWindow proto proxy url method body
    else
      match findConvertedUrl p commandName url COMMAND_URLS_CONFLICTS with
      | some rewrittenUrl => proxyOnce proxy rewrittenUrl method body
      | none => proxyOnce proxy url method body

/- ### The mutable class instance -/

/-- The `ProtocolConverter` instance state: the only mutable field the
methods can touch is `_downstreamProtocol`. -/
structure ProtocolConverter where
  _downstreamProtocol : Option Protocol

/-- The `downstreamProtocol` setter: the one place the field is written. -/
def ProtocolConverter.setDownstreamProtocol (c : ProtocolConverter) (value : Option Protocol) :
    ProtocolConverter :=
  { c with _downstreamProtocol := value }

/-- Method `getTimeoutRequestObjects` on an instance: reads
`this.downstreamProtocol`, never assigns `this._downstreamProtocol`, so
the state returned alongside the value is the input state. -/
def ProtocolConverter.getTimeoutRequestObjectsM (c : ProtocolConverter) (body : JVal) :
    List JVal × ProtocolConverter :=
  (getTimeoutRequestObjects c._downstreamProtocol body, c)

/-- Method `proxySetTimeouts` on an instance (state-passing form). -/
def ProtocolConverter.proxySetTimeoutsM (c : ProtocolConverter) (proxy : Transport)
    (url method : String) (body : JVal) :
    (ProxyResult × List ProxyCall) × ProtocolConverter :=
  (proxySetTimeouts c._downstreamProtocol proxy url method body, c)

/-- Method `proxySetWindow` on an instance (state-passing form). -/
def ProtocolConverter.proxySetWindowM (c : ProtocolConverter) (proxy : Transport)
    (url method : String) (body : JVal) :
    (ProxyResult × List ProxyCall) × ProtocolConverter :=
  (proxySetWindow c._downstreamProtocol proxy url method body, c)

/-- Method `convertAndProxy` on an instance (state-passing form). -/
def ProtocolConverter.convertAndProxyM (c : ProtocolConverter) (proxy : Transport)
    (commandName url method : String) (body : JVal) :
    (ProxyResult × List ProxyCall) × ProtocolConverter :=
  (convertAndProxy c._downstreamProtocol proxy commandName url method body, c)

end ProtoConv

namespace ProtoConv

/- ### Spec-side definitions used to state the claims -/

/-- The window-target body remap exactly as §4.3 of the spec enumerates
it: after defensive parsing, a plain object with a `name` field and no
`handle` field is replaced by `{handle: name}` under W3C; a plain object
with a `handle` field and no `name` field is replaced by `{name: handle}`
under MJSONWP; in every other case (including non-object bodies) the
original body is forwarded unchanged. -/
def specWindowForwardBody (proto : Option Protocol) (body : JVal) : JVal :=
  match safeJsonParse body with
  | JVal.obj fs =>
    if proto = some Protocol.W3C && hasKey (JVal.obj fs) "name" &&
        !hasKey (JVal.obj fs) "handle" then
      JVal.obj [("handle", jgetD (JVal.obj fs) "name")]
    else if proto = some Protocol.MJSONWP && hasKey (JVal.obj fs) "handle" &&
        !hasKey (JVal.obj fs) "name" then
      JVal.obj [("name", jgetD (JVal.obj fs) "handle")]
    else body
  | _ => body

/-- Timeout request objects for a legacy (MJSONWP) target exactly as §4.2
of the spec describes them: one `{type, ms}` object per entry whose
stringified value matches the numeric pattern, in the original entry
order, the `pageLoad` kind renamed to `page load`, all other entries
dropped. -/
def specLegacyTimeoutObjects (fields : List (String × JVal)) : List JVal :=
  fields.filterMap (fun pair =>
    if msValuePattern (templateStr pair.2) then
      some (JVal.obj [("type", JVal.str (typeToJSONWP pair.1)), ("ms", pair.2)])
    else none)

/-- A URL in the execute rule's shape for the given dialect (spec §4.4
table) whose shape markers occur only in that suffix: the `/execute`
marker occurs nowhere earlier (the converter's regex matches at the
first occurrence), and for the sync forms the text `async` occurs
nowhere at all (the converter's sync/async selector is a plain substring
test on the whole URL).  The extra conditions are forced by the
counterexample below: an own-shape URL such as
`/session/async2/execute/sync` violates them and the converter does
change it. -/
def execOwnShape (p : Protocol) (url : String) : Bool :=
  match p with
  | Protocol.MJSONWP =>
    (endsWithL url.data "/execute".data &&
      idxOfL url.data "/execute".data = some (url.data.length - 8) &&
      !containsSubL url.data "async".data) ||
    (endsWithL url.data "/execute_async".data &&
      idxOfL url.data "/execute".data = some (url.data.length - 14))
  | Protocol.W3C =>
    (endsWithL url.data "/execute/sync".data &&
      idxOfL url.data "/execute".data = some (url.data.length - 13) &&
      !containsSubL url.data "async".data) ||
    (endsWithL url.data "/execute/async".data &&
      idxOfL url.data "/execute".data = some (url.data.length - 14))

/-- A URL in the screenshot rule's shape for the given dialect (spec
§4.4 table) that does not also contain the other dialect's fragment:
for MJSONWP, `…/screenshot/{id}` — a nonempty slash-free final segment
directly after a `/screenshot/` marker — and not simultaneously of the
W3C form the converter's regex would match; for W3C,
`…/element/{id}/screenshot` and not simultaneously containing the
`/screenshot/{id}` fragment the converter's regex would match.  The
extra conjuncts are forced by the claim failing on URLs in both shapes
at once (such as `/x/element/screenshot/screenshot`), which the
converters do change. -/
def screenshotOwnShape (p : Protocol) (url : String) : Bool :=
  match p with
  | Protocol.MJSONWP =>
    (!(url.data.reverse.takeWhile (fun c => c ≠ '/')).isEmpty &&
      endsWithL
        (url.data.take
          (url.data.length - (url.data.reverse.takeWhile (fun c => c ≠ '/')).length))
        "/screenshot/".data) &&
    (matchElemScreenshot url).isNone
  | Protocol.W3C =>
    (matchElemScreenshot url).isSome && (findScreenshotSub url.data).isNone

/-- A URL already in the window rule's shape for the given dialect
(spec §4.4 table). -/
def windowOwnShape (p : Protocol) (url : String) : Bool :=
  match p with
  | Protocol.MJSONWP =>
    endsWithL url.data "/window_handle".data || endsWithL url.data "/window_handles".data
  | Protocol.W3C =>
    endsWithL url.data "/window".data || endsWithL url.data "/window/handles".data

/-- A URL in the `i`-th rewrite rule's own shape for the active dialect,
with its shape markers confined to the suffix as the amended C5 claim
requires (see `execOwnShape` and `screenshotOwnShape`; the window rule
needs no extra condition). -/
def urlInOwnShape (p : Protocol) (i : Nat) (url : String) : Bool :=
  match i with
  | 0 => execOwnShape p url
  | 1 => screenshotOwnShape p url
  | 2 => windowOwnShape p url
  | _ => false

end ProtoConv

namespace ProtoConv

/- ### Helper lemmas -/

/-- `filter` followed by `map` is a `filterMap`. -/
theorem filter_map_eq_filterMap {α β : Type} (f : α → Bool) (g : α → β) (l : List α) :
    (l.filter f).map g = l.filterMap (fun a => if f a then some (g a) else none) := by
  induction l with
  | nil => rfl
  | cons x rest ih =>
    by_cases hx : f x = true <;> simp [List.filter_cons, List.filterMap_cons, hx, ih]

/-- `hasKey` is true exactly when `getKey` finds a value. -/
theorem hasKey_eq_true_iff (v : JVal) (k : String) :
    hasKey v k = true ↔ ∃ x, getKey v k = some x := by
  unfold hasKey
  cases h : getKey v k <;> simp [h]

/- ### C7: Unset dialect is pure pass-through -/

/-- C7: when the active dialect is unset, `convertAndProxy` makes exactly
one transport call, with `(url, method, body)` unchanged, and returns
that call's result. -/
theorem convertAndProxy_unset_passthrough (proxy : Transport)
    (commandName url method : String) (body : JVal) :
    convertAndProxy none proxy commandName url method body =
      ((some (proxy 0 url method body).1, some (proxy 0 url method body).2),
       [⟨url, method, body⟩]) := rfl

/- ### C10: no dispatch-side operation writes the dialect field -/

/-- C10: `convertAndProxy`, `proxySetTimeouts`, `proxySetWindow` and
`getTimeoutRequestObjects` only read the `_downstreamProtocol` field: the
instance state after each call equals the state before it, and only the
`downstreamProtocol` setter changes the field. -/
theorem dispatch_preserves_downstream_protocol (c : ProtocolConverter) (proxy : Transport)
    (commandName url method : String) (body : JVal) (value : Option Protocol) :
    (c.convertAndProxyM proxy commandName url method body).2 = c ∧
    (c.proxySetTimeoutsM proxy url method body).2 = c ∧
    (c.proxySetWindowM proxy url method body).2 = c ∧
    (c.getTimeoutRequestObjectsM body).2 = c ∧
    (c.setDownstreamProtocol value)._downstreamProtocol = value :=
  ⟨rfl, rfl, rfl, rfl, rfl⟩

/- ### C4: W3C target with a single-shape `{ms, type}` body -/

/-- C4: for a body object holding both `ms` and `type` (with a string
`type`), a W3C target produces exactly one request object with the key
mapped from `type` — `page load` becomes `pageLoad`, any other type name
maps to itself — and the value of `ms`. -/
theorem getTimeoutRequestObjects_w3c_single (fields : List (String × JVal))
    (ty : String) (msv : JVal)
    (hty : getKey (JVal.obj fields) "type" = some (JVal.str ty))
    (hms : getKey (JVal.obj fields) "ms" = some msv) :
    getTimeoutRequestObjects (some Protocol.W3C) (JVal.obj fields) =
      [JVal.obj [((if ty = "page load" then "pageLoad" else ty), msv)]] := by
  have h1 : hasKey (JVal.obj fields) "ms" = true := by unfold hasKey; rw [hms]; rfl
  have h2 : hasKey (JVal.obj fields) "type" = true := by unfold hasKey; rw [hty]; rfl
  unfold getTimeoutRequestObjects
  simp [h1, h2, jgetD, hty, hms, typeToW3C]

/-- C4 witness: `{type: "page load", ms: 5000}` yields `[{pageLoad: 5000}]`. -/
theorem getTimeoutRequestObjects_w3c_single_witness :
    getKey (JVal.obj [("type", JVal.str "page load"), ("ms", JVal.num 5000)]) "type" =
        some (JVal.str "page load") ∧
    getKey (JVal.obj [("type", JVal.str "page load"), ("ms", JVal.num 5000)]) "ms" =
        some (JVal.num 5000) ∧
    getTimeoutRequestObjects (some Protocol.W3C)
        (JVal.obj [("type", JVal.str "page load"), ("ms", JVal.num 5000)]) =
      [JVal.obj [("pageLoad", JVal.num 5000)]] :=
  ⟨rfl, rfl, by
    have h := getTimeoutRequestObjects_w3c_single
      [("type", JVal.str "page load"), ("ms", JVal.num 5000)] "page load" (JVal.num 5000) rfl rfl
    simpa using h⟩

/- ### C3: MJSONWP target with a multi-kind body -/

/-- C3: for a body object lacking `ms` or lacking `type`, an MJSONWP
target produces one `{type, ms}` request object per entry whose
stringified value matches the numeric pattern, with `pageLoad` mapped to
`page load` and every other kind name kept, non-matching entries dropped,
and the original entry order preserved. -/
theorem getTimeoutRequestObjects_mjsonwp_fanout (fields : List (String × JVal))
    (hmt : hasKey (JVal.obj fields) "ms" = false ∨ hasKey (JVal.obj fields) "type" = false) :
    getTimeoutRequestObjects (some Protocol.MJSONWP) (JVal.obj fields) =
      specLegacyTimeoutObjects fields := by
  unfold getTimeoutRequestObjects specLegacyTimeoutObjects
  have hguard : (!hasKey (JVal.obj fields) "ms" || !hasKey (JVal.obj fields) "type") = true := by
    rcases hmt with h | h <;> simp [h]
  simp [hguard, toPairs, filter_map_eq_filterMap]

/-- C3 witness: `{script: "1000", pageLoad: "2000.5", implicit: "abc"}`
yields exactly the script and page-load objects, in order. -/
theorem getTimeoutRequestObjects_mjsonwp_fanout_witness :
    hasKey (JVal.obj [("script", JVal.str "1000"), ("pageLoad", JVal.str "2000.5"),
        ("implicit", JVal.str "abc")]) "ms" = false ∧
    getTimeoutRequestObjects (some Protocol.MJSONWP)
        (JVal.obj [("script", JVal.str "1000"), ("pageLoad", JVal.str "2000.5"),
          ("implicit", JVal.str "abc")]) =
      [JVal.obj [("type", JVal.str "script"), ("ms", JVal.str "1000")],
       JVal.obj [("type", JVal.str "page load"), ("ms", JVal.str "2000.5")]] :=
  ⟨rfl, by
    have h := getTimeoutRequestObjects_mjsonwp_fanout
      [("script", JVal.str "1000"), ("pageLoad", JVal.str "2000.5"),
        ("implicit", JVal.str "abc")] (Or.inl rfl)
    simpa [specLegacyTimeoutObjects] using h⟩

/- ### C9: all entries dropped means zero transport calls -/

/-- C9: for an MJSONWP target and a body object lacking `ms` or `type`
whose every entry has a non-matching stringified value,
`getTimeoutRequestObjects` is empty and `proxySetTimeouts` makes no
transport call, returning the still-undefined `[response, resBody]`
pair. -/
theorem proxySetTimeouts_mjsonwp_all_dropped (fields : List (String × JVal))
    (proxy : Transport) (url method : String)
    (hmt : hasKey (JVal.obj fields) "ms" = false ∨ hasKey (JVal.obj fields) "type" = false)
    (hall : ∀ pair ∈ fields, msValuePattern (templateStr pair.2) = false) :
    getTimeoutRequestObjects (some Protocol.MJSONWP) (JVal.obj fields) = [] ∧
    proxySetTimeouts (some Protocol.MJSONWP) proxy url method (JVal.obj fields) =
      ((none, none), []) := by
  have hempty : getTimeoutRequestObjects (some Protocol.MJSONWP) (JVal.obj fields) = [] := by
    rw [getTimeoutRequestObjects_mjsonwp_fanout fields hmt]
    unfold specLegacyTimeoutObjects
    rw [List.filterMap_eq_nil_iff]
    intro pair hp
    simp [hall pair hp]
  exact ⟨hempty, by unfold proxySetTimeouts; rw [hempty]; rfl⟩

/-- C9 witness: `{script: "abc"}` produces no request objects and no
transport call. -/
theorem proxySetTimeouts_mjsonwp_all_dropped_witness :
    hasKey (JVal.obj [("script", JVal.str "abc")]) "ms" = false ∧
    getTimeoutRequestObjects (some Protocol.MJSONWP) (JVal.obj [("script", JVal.str "abc")]) = [] ∧
    proxySetTimeouts (some Protocol.MJSONWP) (fun _ _ _ _ => (⟨200⟩, JVal.null)) "/timeouts" "POST"
        (JVal.obj [("script", JVal.str "abc")]) = ((none, none), []) := by
  have h := proxySetTimeouts_mjsonwp_all_dropped [("script", JVal.str "abc")]
    (fun _ _ _ _ => (⟨200⟩, JVal.null)) "/timeouts" "POST" (Or.inl rfl)
    (by intro pair hp; simp at hp; rw [hp]; rfl)
  exact ⟨rfl, h.1, h.2⟩

end ProtoConv

namespace ProtoConv

/- ### C6: window-target body remap -/

/-- C6: `proxySetWindow` makes exactly one transport call, forwarding
`{handle: name}` for a defensively-parsed plain object with `name` and no
`handle` under W3C, `{name: handle}` for one with `handle` and no `name`
under MJSONWP, and the body exactly as received in every other case,
including non-object bodies. -/
theorem proxySetWindow_one_call (proto : Option Protocol) (proxy : Transport)
    (url method : String) (body : JVal) :
    proxySetWindow proto proxy url method body =
      ((some (proxy 0 url method (specWindowForwardBody proto body)).1,
        some (proxy 0 url method (specWindowForwardBody proto body)).2),
       [⟨url, method, specWindowForwardBody proto body⟩]) := by
  have hrw : proxySetWindow proto proxy url method body =
      proxyOnce proxy url method (specWindowForwardBody proto body) := by
    unfold proxySetWindow specWindowForwardBody
    cases h : safeJsonParse body with
    | obj fs =>
      by_cases h1 : (proto = some Protocol.W3C && hasKey (JVal.obj fs) "name" &&
          !hasKey (JVal.obj fs) "handle") = true
      · simp [isPlainObject, h1]
      · by_cases h2 : (proto = some Protocol.MJSONWP && hasKey (JVal.obj fs) "handle" &&
            !hasKey (JVal.obj fs) "name") = true
        · simp [isPlainObject, h1, h2]
        · simp [isPlainObject, h1, h2]
    | str s => simp [isPlainObject]
    | num n => simp [isPlainObject]
    | bool b => simp [isPlainObject]
    | null => simp [isPlainObject]
  rw [hrw]; rfl

end ProtoConv

namespace ProtoConv

/- ### Loop lemmas for `proxySetTimeouts` -/

/-- Unfolding step of the loop for an MJSONWP target when the current
call succeeds: record the call and continue with the next request
object. -/
theorem proxyTimeoutsLoop_cons_ok (proxy : Transport) (url method : String)
    (x : JVal) (rest : List JVal) (k : Nat) (acc : ProxyResult)
    (hx : (proxy k url method x).1.statusCode < 400) :
    proxyTimeoutsLoop (some Protocol.MJSONWP) proxy url method (x :: rest) k acc =
      ((proxyTimeoutsLoop (some Protocol.MJSONWP) proxy url method rest (k + 1)
          (some (proxy k url method x).1, some (proxy k url method x).2)).1,
       ProxyCall.mk url method x ::
        (proxyTimeoutsLoop (some Protocol.MJSONWP) proxy url method rest (k + 1)
          (some (proxy k url method x).1, some (proxy k url method x).2)).2) := by
  conv_lhs => rw [proxyTimeoutsLoop]
  rw [if_neg (by simp), if_neg (by omega)]

/-- Unfolding step of the loop for an MJSONWP target when the current
call fails: return the failing result immediately. -/
theorem proxyTimeoutsLoop_cons_fail (proxy : Transport) (url method : String)
    (x : JVal) (rest : List JVal) (k : Nat) (acc : ProxyResult)
    (hx : 400 ≤ (proxy k url method x).1.statusCode) :
    proxyTimeoutsLoop (some Protocol.MJSONWP) proxy url method (x :: rest) k acc =
      ((some (proxy k url method x).1, some (proxy k url method x).2),
       [ProxyCall.mk url method x]) := by
  conv_lhs => rw [proxyTimeoutsLoop]
  rw [if_neg (by simp), if_pos (by omega)]

/-- When the active dialect is MJSONWP and every transport call on the
remaining request objects reports a status below 400, the loop issues one
call per object, strictly in sequence, and returns the last call's
result. -/
theorem proxyTimeoutsLoop_all_ok (proxy : Transport) (url method : String) :
    ∀ (objs : List JVal) (k : Nat) (acc : ProxyResult),
      0 < objs.length →
      (∀ i, i < objs.length →
        (proxy (k + i) url method (objs.getD i JVal.null)).1.statusCode < 400) →
      proxyTimeoutsLoop (some Protocol.MJSONWP) proxy url method objs k acc =
        ((some (proxy (k + objs.length - 1) url method (objs.getLastD JVal.null)).1,
          some (proxy (k + objs.length - 1) url method (objs.getLastD JVal.null)).2),
         objs.map (fun o => ProxyCall.mk url method o)) := by
  intro objs
  induction objs with
  | nil => intro k acc hpos _; simp at hpos
  | cons x rest ih =>
    intro k acc hpos hall
    have hx : (proxy k url method x).1.statusCode < 400 := by
      have := hall 0 (by simp)
      simpa using this
    rw [proxyTimeoutsLoop_cons_ok proxy url method x rest k acc hx]
    cases rest with
    | nil => simp [proxyTimeoutsLoop, List.getLastD]
    | cons y rest' =>
      have hall2 : ∀ i, i < (y :: rest').length →
          (proxy (k + 1 + i) url method ((y :: rest').getD i JVal.null)).1.statusCode < 400 := by
        intro i hi
        have := hall (i + 1) (by simpa using Nat.succ_lt_succ hi)
        have harith : k + (i + 1) = k + 1 + i := by omega
        simpa [harith] using this
      rw [ih (k + 1) (some (proxy k url method x).1, some (proxy k url method x).2)
        (by simp) hall2]
      have harith : k + 1 + (y :: rest').length - 1 = k + (x :: y :: rest').length - 1 := by
        simp; omega
      rw [harith]
      simp [List.getLastD]

/-- When the active dialect is MJSONWP and the `j`-th remaining call is
the first to report status at least 400, the loop stops there: it issues
exactly `j + 1` calls and returns the failing call's result verbatim. -/
theorem proxyTimeoutsLoop_first_fail (proxy : Transport) (url method : String) :
    ∀ (objs : List JVal) (k j : Nat) (acc : ProxyResult),
      j < objs.length →
      (∀ i, i < j →
        (proxy (k + i) url method (objs.getD i JVal.null)).1.statusCode < 400) →
      400 ≤ (proxy (k + j) url method (objs.getD j JVal.null)).1.statusCode →
      proxyTimeoutsLoop (some Protocol.MJSONWP) proxy url method objs k acc =
        ((some (proxy (k + j) url method (objs.getD j JVal.null)).1,
          some (proxy (k + j) url method (objs.getD j JVal.null)).2),
         (objs.take (j + 1)).map (fun o => ProxyCall.mk url method o)) := by
  intro objs
  induction objs with
  | nil => intro k j acc hj _ _; simp at hj
  | cons x rest ih =>
    intro k j acc hj hok hfail
    cases j with
    | zero =>
      simp only [List.getD_cons_zero, Nat.add_zero] at hfail ⊢
      rw [proxyTimeoutsLoop_cons_fail proxy url method x rest k acc hfail]
      simp
    | succ j' =>
      have hx : (proxy k url method x).1.statusCode < 400 := by
        have := hok 0 (by omega)
        simpa using this
      have hok2 : ∀ i, i < j' →
          (proxy (k + 1 + i) url method (rest.getD i JVal.null)).1.statusCode < 400 := by
        intro i hi
        have := hok (i + 1) (by omega)
        have harith : k + (i + 1) = k + 1 + i := by omega
        simpa [harith] using this
      have hfail2 : 400 ≤ (proxy (k + 1 + j') url method (rest.getD j' JVal.null)).1.statusCode := by
        have harith : k + (j' + 1) = k + 1 + j' := by omega
        simpa [harith] using hfail
      rw [proxyTimeoutsLoop_cons_ok proxy url method x rest k acc hx]
      rw [ih (k + 1) j' (some (proxy k url method x).1, some (proxy k url method x).2)
        (by simpa using Nat.lt_of_succ_lt_succ hj) hok2 hfail2]
      have harith : k + 1 + j' = k + (j' + 1) := by omega
      simp [harith]

end ProtoConv

namespace ProtoConv

/- ### C2: first failing sub-call stops the MJSONWP timeout fan-out -/

/-- C2: for the `timeouts` command against an MJSONWP target, if the
calls before position `j` succeed and the `j`-th transport call reports a
status of 400 or more, dispatch makes exactly `j + 1` transport calls in
total, returns the failing call's result verbatim, and issues no further
(and no compensating) call. -/
theorem convertAndProxy_timeouts_mjsonwp_first_fail (proxy : Transport)
    (url method : String) (body : JVal) (j : Nat)
    (hj : j < (getTimeoutRequestObjects (some Protocol.MJSONWP) body).length)
    (hok : ∀ i, i < j → (proxy i url method
        ((getTimeoutRequestObjects (some Protocol.MJSONWP) body).getD i
          JVal.null)).1.statusCode < 400)
    (hfail : 400 ≤ (proxy j url method
        ((getTimeoutRequestObjects (some Protocol.MJSONWP) body).getD j
          JVal.null)).1.statusCode) :
    (convertAndProxy (some Protocol.MJSONWP) proxy "timeouts" url method body).2.length =
        j + 1 ∧
    convertAndProxy (some Protocol.MJSONWP) proxy "timeouts" url method body =
      ((some (proxy j url method
          ((getTimeoutRequestObjects (some Protocol.MJSONWP) body).getD j JVal.null)).1,
        some (proxy j url method
          ((getTimeoutRequestObjects (some Protocol.MJSONWP) body).getD j JVal.null)).2),
       ((getTimeoutRequestObjects (some Protocol.MJSONWP) body).take (j + 1)).map
         (fun o => ProxyCall.mk url method o)) := by
  have h := proxyTimeoutsLoop_first_fail proxy url method
    (getTimeoutRequestObjects (some Protocol.MJSONWP) body) 0 j (none, none) hj
    (by intro i hi; simpa using hok i hi) (by simpa using hfail)
  have hmain : convertAndProxy (some Protocol.MJSONWP) proxy "timeouts" url method body =
      ((some (proxy j url method
          ((getTimeoutRequestObjects (some Protocol.MJSONWP) body).getD j JVal.null)).1,
        some (proxy j url method
          ((getTimeoutRequestObjects (some Protocol.MJSONWP) body).getD j JVal.null)).2),
       ((getTimeoutRequestObjects (some Protocol.MJSONWP) body).take (j + 1)).map
         (fun o => ProxyCall.mk url method o)) := by
    show proxySetTimeouts (some Protocol.MJSONWP) proxy url method body = _
    unfold proxySetTimeouts
    simpa using h
  refine ⟨?_, hmain⟩
  rw [hmain]
  simp
  omega

/-- C2 witness: three produced request objects, the second transport call
returns status 400: exactly two calls occur and the second result is
returned. -/
theorem convertAndProxy_timeouts_mjsonwp_first_fail_witness :
    1 < (getTimeoutRequestObjects (some Protocol.MJSONWP)
        (JVal.obj [("script", JVal.str "1"), ("pageLoad", JVal.str "2"),
          ("implicit", JVal.str "3")])).length ∧
    (∀ i, i < 1 → (((fun i _ _ _ => (Response.mk (if i == 1 then 400 else 200), JVal.null)) :
        Transport) i "/timeouts" "POST"
        ((getTimeoutRequestObjects (some Protocol.MJSONWP)
          (JVal.obj [("script", JVal.str "1"), ("pageLoad", JVal.str "2"),
            ("implicit", JVal.str "3")])).getD i JVal.null)).1.statusCode < 400) ∧
    (convertAndProxy (some Protocol.MJSONWP)
        ((fun i _ _ _ => (Response.mk (if i == 1 then 400 else 200), JVal.null)) : Transport)
        "timeouts" "/timeouts" "POST"
        (JVal.obj [("script", JVal.str "1"), ("pageLoad", JVal.str "2"),
          ("implicit", JVal.str "3")])).2.length = 1 + 1 :=
  ⟨by decide, by decide,
    (convertAndProxy_timeouts_mjsonwp_first_fail
      ((fun i _ _ _ => (Response.mk (if i == 1 then 400 else 200), JVal.null)) : Transport)
      "/timeouts" "POST"
      (JVal.obj [("script", JVal.str "1"), ("pageLoad", JVal.str "2"),
        ("implicit", JVal.str "3")]) 1 (by decide) (by decide) (by decide)).1⟩

/- ### C8: sequencing of the timeout fan-out -/

/-- C8: if the active dialect is not MJSONWP, `proxySetTimeouts` issues
exactly one transport call (for the single produced request object) and
returns its result immediately; if the dialect is MJSONWP and every
produced request object's call reports a status below 400, it issues one
call per object, strictly in sequence, and returns the last call's
result. -/
theorem proxySetTimeouts_sequencing (proto : Option Protocol) (proxy : Transport)
    (url method : String) (body : JVal) :
    (proto ≠ some Protocol.MJSONWP →
      (getTimeoutRequestObjects proto body).length = 1 ∧
      proxySetTimeouts proto proxy url method body =
        ((some (proxy 0 url method
            ((getTimeoutRequestObjects proto body).headD JVal.null)).1,
          some (proxy 0 url method
            ((getTimeoutRequestObjects proto body).headD JVal.null)).2),
         [ProxyCall.mk url method ((getTimeoutRequestObjects proto body).headD JVal.null)])) ∧
    (proto = some Protocol.MJSONWP →
      0 < (getTimeoutRequestObjects proto body).length →
      (∀ i, i < (getTimeoutRequestObjects proto body).length →
        (proxy i url method
          ((getTimeoutRequestObjects proto body).getD i JVal.null)).1.statusCode < 400) →
      proxySetTimeouts proto proxy url method body =
        ((some (proxy ((getTimeoutRequestObjects proto body).length - 1) url method
            ((getTimeoutRequestObjects proto body).getLastD JVal.null)).1,
          some (proxy ((getTimeoutRequestObjects proto body).length - 1) url method
            ((getTimeoutRequestObjects proto body).getLastD JVal.null)).2),
         (getTimeoutRequestObjects proto body).map (fun o => ProxyCall.mk url method o))) := by
  constructor
  · intro hproto
    have hsingle : ∃ o, getTimeoutRequestObjects proto body = [o] := by
      unfold getTimeoutRequestObjects
      by_cases h1 : (decide (proto = some Protocol.W3C) && hasKey body "ms" &&
          hasKey body "type") = true
      · exact ⟨_, by rw [if_pos h1]⟩
      · refine ⟨body, ?_⟩
        have h2 : (decide (proto = some Protocol.MJSONWP) &&
            (!hasKey body "ms" || !hasKey body "type")) = false := by
          simp [hproto]
        rw [if_neg (by simp [h1]), if_neg (by simp [h2])]
    obtain ⟨o, ho⟩ := hsingle
    constructor
    · rw [ho]; rfl
    · unfold proxySetTimeouts
      rw [ho]
      conv_lhs => rw [proxyTimeoutsLoop]
      rw [if_pos hproto]
      simp [ho]
  · intro hp hpos hall
    subst hp
    unfold proxySetTimeouts
    have h := proxyTimeoutsLoop_all_ok proxy url method
      (getTimeoutRequestObjects (some Protocol.MJSONWP) body) 0 (none, none) hpos
      (by intro i hi; simpa using hall i hi)
    simpa using h

/-- C8 witness: a W3C target issues exactly one call; an MJSONWP target
with two successful request objects issues two sequential calls and
returns the second result. -/
theorem proxySetTimeouts_sequencing_witness :
    (some Protocol.W3C ≠ some Protocol.MJSONWP) ∧
    ((getTimeoutRequestObjects (some Protocol.W3C)
        (JVal.obj [("type", JVal.str "script"), ("ms", JVal.num 100)])).length = 1 ∧
      proxySetTimeouts (some Protocol.W3C)
          ((fun _ _ _ _ => (Response.mk 200, JVal.null)) : Transport) "/timeouts" "POST"
          (JVal.obj [("type", JVal.str "script"), ("ms", JVal.num 100)]) =
        ((some (((fun _ _ _ _ => (Response.mk 200, JVal.null)) : Transport) 0 "/timeouts" "POST"
            ((getTimeoutRequestObjects (some Protocol.W3C)
              (JVal.obj [("type", JVal.str "script"), ("ms", JVal.num 100)])).headD
                JVal.null)).1,
          some (((fun _ _ _ _ => (Response.mk 200, JVal.null)) : Transport) 0 "/timeouts" "POST"
            ((getTimeoutRequestObjects (some Protocol.W3C)
              (JVal.obj [("type", JVal.str "script"), ("ms", JVal.num 100)])).headD
                JVal.null)).2),
         [ProxyCall.mk "/timeouts" "POST"
            ((getTimeoutRequestObjects (some Protocol.W3C)
              (JVal.obj [("type", JVal.str "script"), ("ms", JVal.num 100)])).headD
                JVal.null)])) ∧
    (0 < (getTimeoutRequestObjects (some Protocol.MJSONWP)
        (JVal.obj [("script", JVal.str "1"), ("implicit", JVal.str "2")])).length) ∧
    proxySetTimeouts (some Protocol.MJSONWP)
        ((fun _ _ _ _ => (Response.mk 200, JVal.null)) : Transport) "/timeouts" "POST"
        (JVal.obj [("script", JVal.str "1"), ("implicit", JVal.str "2")]) =
      ((some (((fun _ _ _ _ => (Response.mk 200, JVal.null)) : Transport)
          ((getTimeoutRequestObjects (some Protocol.MJSONWP)
            (JVal.obj [("script", JVal.str "1"), ("implicit", JVal.str "2")])).length - 1)
          "/timeouts" "POST"
          ((getTimeoutRequestObjects (some Protocol.MJSONWP)
            (JVal.obj [("script", JVal.str "1"), ("implicit", JVal.str "2")])).getLastD
              JVal.null)).1,
        some (((fun _ _ _ _ => (Response.mk 200, JVal.null)) : Transport)
          ((getTimeoutRequestObjects (some Protocol.MJSONWP)
            (JVal.obj [("script", JVal.str "1"), ("implicit", JVal.str "2")])).length - 1)
          "/timeouts" "POST"
          ((getTimeoutRequestObjects (some Protocol.MJSONWP)
            (JVal.obj [("script", JVal.str "1"), ("implicit", JVal.str "2")])).getLastD
              JVal.null)).2),
       (getTimeoutRequestObjects (some Protocol.MJSONWP)
          (JVal.obj [("script", JVal.str "1"), ("implicit", JVal.str "2")])).map
         (fun o => ProxyCall.mk "/timeouts" "POST" o)) :=
  ⟨by decide,
   (proxySetTimeouts_sequencing (some Protocol.W3C)
      ((fun _ _ _ _ => (Response.mk 200, JVal.null)) : Transport) "/timeouts" "POST"
      (JVal.obj [("type", JVal.str "script"), ("ms", JVal.num 100)])).1 (by decide),
   by decide,
   (proxySetTimeouts_sequencing (some Protocol.MJSONWP)
      ((fun _ _ _ _ => (Response.mk 200, JVal.null)) : Transport) "/timeouts" "POST"
      (JVal.obj [("script", JVal.str "1"), ("implicit", JVal.str "2")])).2 rfl (by decide)
      (by decide)⟩

end ProtoConv

namespace ProtoConv

/- ### Prefix/suffix lemmas for the URL rewriting proofs -/

/-- Two prefixes of the same list are comparable: the shorter is a prefix
of the longer. -/
theorem isPrefixL_of_le (a : List Char) : ∀ (b r : List Char), isPrefixL a r = true →
    isPrefixL b r = true → a.length ≤ b.length → isPrefixL a b = true := by
  induction a with
  | nil => intro b r _ _ _; rfl
  | cons x a' ih =>
    intro b r ha hb hlen
    cases r with
    | nil => simp [isPrefixL] at ha
    | cons z r' =>
      simp only [isPrefixL, Bool.and_eq_true, decide_eq_true_eq] at ha
      obtain ⟨hxz, ha'⟩ := ha
      cases b with
      | nil => simp at hlen
      | cons y b' =>
        simp only [isPrefixL, Bool.and_eq_true, decide_eq_true_eq] at hb
        obtain ⟨hyz, hb'⟩ := hb
        simp only [isPrefixL, Bool.and_eq_true, decide_eq_true_eq]
        exact ⟨by rw [hxz, hyz], ih b' r' ha' hb' (by simpa using hlen)⟩

/-- A prefix can be completed to the whole list. -/
theorem exists_append_of_isPrefixL (a : List Char) : ∀ b, isPrefixL a b = true →
    ∃ t, b = a ++ t := by
  induction a with
  | nil => intro b _; exact ⟨b, rfl⟩
  | cons x a' ih =>
    intro b h
    cases b with
    | nil => simp [isPrefixL] at h
    | cons y b' =>
      simp only [isPrefixL, Bool.and_eq_true, decide_eq_true_eq] at h
      obtain ⟨hxy, h'⟩ := h
      obtain ⟨t, ht⟩ := ih b' h'
      exact ⟨t, by rw [ht, hxy]; rfl⟩

/-- A suffix can be completed to the whole list. -/
theorem exists_append_of_endsWithL (cs s : List Char) (h : endsWithL cs s = true) :
    ∃ p, cs = p ++ s := by
  unfold endsWithL at h
  obtain ⟨t, ht⟩ := exists_append_of_isPrefixL s.reverse cs.reverse h
  refine ⟨t.reverse, ?_⟩
  have := congrArg List.reverse ht
  simpa using this

/-- A list cannot end in two suffixes whose reversals are mutually
non-prefixes. -/
theorem not_endsWithL_of_endsWithL (cs s1 s2 : List Char) (h1 : endsWithL cs s1 = true)
    (h12 : isPrefixL s1.reverse s2.reverse = false)
    (h21 : isPrefixL s2.reverse s1.reverse = false) :
    endsWithL cs s2 = false := by
  by_contra hcontra
  rw [Bool.not_eq_false] at hcontra
  unfold endsWithL at h1 hcontra
  rcases Nat.le_total s1.length s2.length with hle | hle
  · have := isPrefixL_of_le s1.reverse s2.reverse cs.reverse h1 hcontra (by simpa using hle)
    rw [h12] at this
    exact absurd this (by simp)
  · have := isPrefixL_of_le s2.reverse s1.reverse cs.reverse hcontra h1 (by simpa using hle)
    rw [h21] at this
    exact absurd this (by simp)

/-- A substring occurrence survives prepending material. -/
theorem containsSubL_append_left (a b t : List Char) (h : containsSubL b t = true) :
    containsSubL (a ++ b) t = true := by
  induction a with
  | nil => simpa using h
  | cons x a' ih =>
    show (idxOfL (x :: (a' ++ b)) t).isSome = true
    rw [idxOfL]
    by_cases hp : isPrefixL t (x :: (a' ++ b)) = true
    · simp [hp]
    · unfold containsSubL at ih
      simp only [hp]
      simpa using ih

/-- `dropWhile` consumes a list all of whose entries satisfy the
predicate. -/
theorem dropWhile_eq_nil_of_all (p : Char → Bool) (l : List Char) (h : l.all p = true) :
    l.dropWhile p = [] := by
  induction l with
  | nil => rfl
  | cons x rest ih =>
    simp only [List.all_cons, Bool.and_eq_true] at h
    simp [List.dropWhile_cons, h.1, ih h.2]

/-- Replacing the first-match region does not change a string whose match
region is exactly its own suffix: when the first occurrence of `needle`
sits at the start of the suffix `repl` and that suffix holds no line
terminator after the needle, the replacement reproduces the suffix. -/
theorem replaceFromFirst_suffix (p needle repl : List Char)
    (hnl : (repl.drop needle.length).all (fun c => !lineTerm c) = true)
    (hidx : idxOfL (p ++ repl) needle = some p.length) :
    replaceFromFirst (p ++ repl) needle repl = p ++ repl := by
  unfold replaceFromFirst
  simp only [hidx]
  have ht : (p ++ repl).take p.length = p := List.take_left p repl
  have hd : (p ++ repl).drop (p.length + needle.length) = repl.drop needle.length := by
    rw [← List.drop_drop, List.drop_left]
  rw [ht, hd, dropWhile_eq_nil_of_all _ _ hnl]
  simp

end ProtoConv

namespace ProtoConv

/- ### The converters leave own-shape URLs unchanged -/

/-- Core of the execute-rule no-op argument: the replacement equals the
URL's own suffix, whose start is the first `/execute` occurrence. -/
theorem execReplace_noop (cs sfx : List Char)
    (hend : endsWithL cs sfx = true)
    (hidx : idxOfL cs "/execute".data = some (cs.length - sfx.length))
    (hnl : (sfx.drop "/execute".data.length).all (fun c => !lineTerm c) = true) :
    replaceFromFirst cs "/execute".data sfx = cs := by
  obtain ⟨p, hp⟩ := exists_append_of_endsWithL cs sfx hend
  subst hp
  have hlen : (p ++ sfx).length - sfx.length = p.length := by simp
  rw [hlen] at hidx
  exact replaceFromFirst_suffix p _ sfx hnl hidx

/-- The MJSONWP execute converter does not change a URL already in
MJSONWP shape. -/
theorem execJsonwpConverter_own_shape (url : String)
    (h : execOwnShape Protocol.MJSONWP url = true) :
    execJsonwpConverter url = url := by
  unfold execOwnShape at h
  rw [Bool.or_eq_true] at h
  unfold execJsonwpConverter
  rcases h with h | h
  · simp only [Bool.and_eq_true, Bool.not_eq_true', decide_eq_true_eq] at h
    obtain ⟨⟨h1, h2⟩, h3⟩ := h
    rw [if_neg (by simp [h3])]
    have hl : ("/execute".data).length = 8 := rfl
    rw [execReplace_noop url.data "/execute".data h1 (by rw [hl]; exact h2) (by decide)]
  · simp only [Bool.and_eq_true, decide_eq_true_eq] at h
    obtain ⟨h1, h2⟩ := h
    obtain ⟨p, hp⟩ := exists_append_of_endsWithL url.data "/execute_async".data h1
    have hasync : containsSubL url.data "async".data = true := by
      rw [hp]; exact containsSubL_append_left p _ _ (by decide)
    rw [if_pos hasync]
    have hl : ("/execute_async".data).length = 14 := rfl
    rw [execReplace_noop url.data "/execute_async".data h1 (by rw [hl]; exact h2) (by decide)]

/-- The W3C execute converter does not change a URL already in W3C
shape. -/
theorem execW3cConverter_own_shape (url : String)
    (h : execOwnShape Protocol.W3C url = true) :
    execW3cConverter url = url := by
  unfold execOwnShape at h
  rw [Bool.or_eq_true] at h
  unfold execW3cConverter
  rcases h with h | h
  · simp only [Bool.and_eq_true, Bool.not_eq_true', decide_eq_true_eq] at h
    obtain ⟨⟨h1, h2⟩, h3⟩ := h
    rw [if_neg (by simp [h3])]
    have hl : ("/execute/sync".data).length = 13 := rfl
    rw [execReplace_noop url.data "/execute/sync".data h1 (by rw [hl]; exact h2) (by decide)]
  · simp only [Bool.and_eq_true, decide_eq_true_eq] at h
    obtain ⟨h1, h2⟩ := h
    obtain ⟨p, hp⟩ := exists_append_of_endsWithL url.data "/execute/async".data h1
    have hasync : containsSubL url.data "async".data = true := by
      rw [hp]; exact containsSubL_append_left p _ _ (by decide)
    rw [if_pos hasync]
    have hl : ("/execute/async".data).length = 14 := rfl
    rw [execReplace_noop url.data "/execute/async".data h1 (by rw [hl]; exact h2) (by decide)]

/-- The MJSONWP screenshot converter does not change a URL already in
MJSONWP shape. -/
theorem screenshotJsonwpConverter_own_shape (url : String)
    (h : screenshotOwnShape Protocol.MJSONWP url = true) :
    screenshotJsonwpConverter url = url := by
  unfold screenshotOwnShape at h
  simp only [Bool.and_eq_true] at h
  have hnone : matchElemScreenshot url = none := by
    simpa [Option.isNone_iff_eq_none] using h.2
  unfold screenshotJsonwpConverter
  rw [hnone]

/-- The W3C screenshot converter does not change a URL already in W3C
shape. -/
theorem screenshotW3cConverter_own_shape (url : String)
    (h : screenshotOwnShape Protocol.W3C url = true) :
    screenshotW3cConverter url = url := by
  unfold screenshotOwnShape at h
  simp only [Bool.and_eq_true] at h
  have hnone : findScreenshotSub url.data = none := by
    simpa [Option.isNone_iff_eq_none] using h.2
  unfold screenshotW3cConverter
  rw [hnone]

/-- The MJSONWP window converter does not change a URL already in
MJSONWP shape. -/
theorem windowJsonwpConverter_own_shape (url : String)
    (h : windowOwnShape Protocol.MJSONWP url = true) :
    windowJsonwpConverter url = url := by
  unfold windowOwnShape at h
  rw [Bool.or_eq_true] at h
  unfold windowJsonwpConverter
  rcases h with h1 | h1
  · rw [if_neg (by
      simp [not_endsWithL_of_endsWithL url.data "/window_handle".data "/window".data h1
        (by decide) (by decide)]),
      if_neg (by
      simp [not_endsWithL_of_endsWithL url.data "/window_handle".data "/window/handles".data h1
        (by decide) (by decide)]),
      if_neg (by
      simp [not_endsWithL_of_endsWithL url.data "/window_handle".data "/window/handle".data h1
        (by decide) (by decide)])]
  · rw [if_neg (by
      simp [not_endsWithL_of_endsWithL url.data "/window_handles".data "/window".data h1
        (by decide) (by decide)]),
      if_neg (by
      simp [not_endsWithL_of_endsWithL url.data "/window_handles".data "/window/handles".data h1
        (by decide) (by decide)]),
      if_neg (by
      simp [not_endsWithL_of_endsWithL url.data "/window_handles".data "/window/handle".data h1
        (by decide) (by decide)])]

/-- The W3C window converter does not change a URL already in W3C
shape. -/
theorem windowW3cConverter_own_shape (url : String)
    (h : windowOwnShape Protocol.W3C url = true) :
    windowW3cConverter url = url := by
  unfold windowOwnShape at h
  rw [Bool.or_eq_true] at h
  unfold windowW3cConverter
  rcases h with h1 | h1
  · rw [if_neg (by
      simp [not_endsWithL_of_endsWithL url.data "/window".data "/window_handle".data h1
        (by decide) (by decide)]),
      if_neg (by
      simp [not_endsWithL_of_endsWithL url.data "/window".data "/window_handles".data h1
        (by decide) (by decide)])]
  · rw [if_neg (by
      simp [not_endsWithL_of_endsWithL url.data "/window/handles".data "/window_handle".data h1
        (by decide) (by decide)]),
      if_neg (by
      simp [not_endsWithL_of_endsWithL url.data "/window/handles".data "/window_handles".data h1
        (by decide) (by decide)])]

end ProtoConv

namespace ProtoConv

/- ### C5: own-shape URLs and the "rule not applicable" fall-through -/

/-- C5 (amended): for every rule of the rewrite table and every URL in
the active dialect's own shape whose shape markers occur only in that
suffix (`urlInOwnShape`), the dialect's converter returns the URL
textually unchanged, and `convertAndProxy` treats the rule as not
applicable: it forwards the original `(url, method, body)` to the
transport in a single call instead of treating the unchanged URL as a
successful rewrite.  The original claim, quantified over every
own-shape URL, is refuted by the counterexample below. -/
theorem own_shape_rule_not_applied (p : Protocol) (i : Nat)
    (hi : i < COMMAND_URLS_CONFLICTS.length)
    (url commandName method : String) (body : JVal) (proxy : Transport)
    (hshape : urlInOwnShape p i url = true)
    (hcmd : commandName ∈ (COMMAND_URLS_CONFLICTS.get ⟨i, hi⟩).commandNames) :
    (if p = Protocol.MJSONWP then (COMMAND_URLS_CONFLICTS.get ⟨i, hi⟩).jsonwpConverter url
      else (COMMAND_URLS_CONFLICTS.get ⟨i, hi⟩).w3cConverter url) = url ∧
    convertAndProxy (some p) proxy commandName url method body =
      ((some (proxy 0 url method body).1, some (proxy 0 url method body).2),
       [⟨url, method, body⟩]) := by
  have hi3 : i < 3 := hi
  have hcases : i = 0 ∨ i = 1 ∨ i = 2 := by omega
  rcases hcases with rfl | rfl | rfl
  · simp only [COMMAND_URLS_CONFLICTS, List.get, List.mem_cons, List.mem_singleton,
      List.not_mem_nil, or_false] at hcmd ⊢
    cases p with
    | MJSONWP =>
      have hconv := execJsonwpConverter_own_shape url hshape
      refine ⟨by simpa using hconv, ?_⟩
      rcases hcmd with rfl | rfl <;>
        simp [convertAndProxy, findConvertedUrl, COMMAND_URLS_CONFLICTS, hconv, proxyOnce]
    | W3C =>
      have hconv := execW3cConverter_own_shape url hshape
      refine ⟨by simpa using hconv, ?_⟩
      rcases hcmd with rfl | rfl <;>
        simp [convertAndProxy, findConvertedUrl, COMMAND_URLS_CONFLICTS, hconv, proxyOnce]
  · simp only [COMMAND_URLS_CONFLICTS, List.get, List.mem_cons, List.mem_singleton,
      List.not_mem_nil, or_false] at hcmd ⊢
    cases p with
    | MJSONWP =>
      have hconv := screenshotJsonwpConverter_own_shape url hshape
      refine ⟨by simpa using hconv, ?_⟩
      subst hcmd
      simp [convertAndProxy, findConvertedUrl, COMMAND_URLS_CONFLICTS, hconv, proxyOnce]
    | W3C =>
      have hconv := screenshotW3cConverter_own_shape url hshape
      refine ⟨by simpa using hconv, ?_⟩
      subst hcmd
      simp [convertAndProxy, findConvertedUrl, COMMAND_URLS_CONFLICTS, hconv, proxyOnce]
  · simp only [COMMAND_URLS_CONFLICTS, List.get, List.mem_cons, List.mem_singleton,
      List.not_mem_nil, or_false] at hcmd ⊢
    cases p with
    | MJSONWP =>
      have hconv := windowJsonwpConverter_own_shape url hshape
      refine ⟨by simpa using hconv, ?_⟩
      rcases hcmd with rfl | rfl <;>
        simp [convertAndProxy, findConvertedUrl, COMMAND_URLS_CONFLICTS, hconv, proxyOnce]
    | W3C =>
      have hconv := windowW3cConverter_own_shape url hshape
      refine ⟨by simpa using hconv, ?_⟩
      rcases hcmd with rfl | rfl <;>
        simp [convertAndProxy, findConvertedUrl, COMMAND_URLS_CONFLICTS, hconv, proxyOnce]

end ProtoConv

namespace ProtoConv

/-- C5 witness: the screenshot rule with a W3C target and a URL already
in W3C shape — the rule is skipped and the original URL is forwarded. -/
theorem own_shape_rule_not_applied_witness :
    urlInOwnShape Protocol.W3C 1 "/session/abc/element/123/screenshot" = true ∧
    convertAndProxy (some Protocol.W3C)
        ((fun _ _ _ _ => (Response.mk 200, JVal.null)) : Transport) "getElementScreenshot"
        "/session/abc/element/123/screenshot" "GET" JVal.null =
      ((some (Response.mk 200), some JVal.null),
       [⟨"/session/abc/element/123/screenshot", "GET", JVal.null⟩]) :=
  ⟨by decide,
   (own_shape_rule_not_applied Protocol.W3C 1 (by decide)
      "/session/abc/element/123/screenshot" "getElementScreenshot" "GET" JVal.null
      ((fun _ _ _ _ => (Response.mk 200, JVal.null)) : Transport) (by decide) (by decide)).2⟩

/- ### C1: direction of the screenshot URL rewrite -/

/-- C1 counterexample: with the W3C dialect active, dispatching
`getElementScreenshot` for `…/element/123/screenshot` forwards the
original URL, not the rewritten `…/screenshot/123` the claim expects. -/
theorem getElementScreenshot_w3c_not_rewritten :
    ((convertAndProxy (some Protocol.W3C)
        ((fun _ _ _ _ => (Response.mk 200, JVal.null)) : Transport) "getElementScreenshot"
        "/session/abc/element/123/screenshot" "GET" JVal.null).2.map ProxyCall.url) =
      ["/session/abc/element/123/screenshot"] ∧
    ((convertAndProxy (some Protocol.W3C)
        ((fun _ _ _ _ => (Response.mk 200, JVal.null)) : Transport) "getElementScreenshot"
        "/session/abc/element/123/screenshot" "GET" JVal.null).2.map ProxyCall.url) ≠
      ["/session/abc/screenshot/123"] := by
  refine ⟨rfl, ?_⟩
  decide

/-- C1 (amended): with the MJSONWP dialect active, dispatching
`getElementScreenshot` rewrites `…/element/123/screenshot` to
`…/screenshot/123` and forwards the rewritten URL with the method and
body unchanged. -/
theorem getElementScreenshot_mjsonwp_rewrites (proxy : Transport) (method : String)
    (body : JVal) :
    convertAndProxy (some Protocol.MJSONWP) proxy "getElementScreenshot"
        "/session/abc/element/123/screenshot" method body =
      ((some (proxy 0 "/session/abc/screenshot/123" method body).1,
        some (proxy 0 "/session/abc/screenshot/123" method body).2),
       [⟨"/session/abc/screenshot/123", method, body⟩]) := rfl

end ProtoConv

namespace ProtoConv

/-- C5 counterexample: `/session/async2/execute/sync` is already in
DialectB's own shape for the execute rule (it ends in `/execute/sync`,
the spec table's W3C sync form), yet the W3C converter does not leave it
unchanged — the whole-URL `async` substring test sees the session id and
rewrites it to `/session/async2/execute/async` — and dispatch forwards
the rewritten URL instead of the original one. -/
theorem own_shape_url_rewritten :
    endsWithL "/session/async2/execute/sync".data "/execute/sync".data = true ∧
    execW3cConverter "/session/async2/execute/sync" = "/session/async2/execute/async" ∧
    execW3cConverter "/session/async2/execute/sync" ≠ "/session/async2/execute/sync" ∧
    (convertAndProxy (some Protocol.W3C)
        ((fun _ _ _ _ => (Response.mk 200, JVal.null)) : Transport) "execute"
        "/session/async2/execute/sync" "POST" JVal.null).2.map ProxyCall.url =
      ["/session/async2/execute/async"] := by
  refine ⟨rfl, rfl, ?_, rfl⟩
  decide

end ProtoConv
